import Mathlib

/-!
Shallow embedding of `repoze/bfg/workflow/statemachine.py` (class `StateMachine`).

Modelling conventions:
* State names, attribute names, attribute values and metadata values are `String`s
  (the source treats them as opaque comparable values, typically strings).
* Transition names are `Option String`: the source compares the `name` entry of a
  transition dictionary against the `transition_name` argument with plain equality,
  and both may be Python `None`.
* A context object is a bag of named attributes (`getattr`/`setattr` with a default
  model Python attribute access); Python dicts are association lists with
  first-key-wins lookup and in-place update.
* Guards and callbacks are opaque caller functions.  In Python they mutate the
  context in place and may raise; we model them as functions returning the mutated
  context together with an optional error value.  A raised error keeps the
  mutations performed before the raise, exactly as in Python.
* `execute`/`transition_to_state` return an `ExecResult`: normal return (`ok`),
  a raised `StateMachineError` (`machineError`), or a propagated guard/callback
  error (`raised`).  Each constructor carries the context as the caller observes
  it after the call, since the Python engine mutates the context in place.
* The `initializer` argument and the `initialize` method of the source are not
  modelled: no claim concerns them.
-/

namespace RepozeWorkflow

/-- First-match lookup in an association list (Python `dict` access / `getattr`). -/
def lookupA {α : Type} : List (String × α) → String → Option α
  | [], _ => none
  | p :: ps, k => if p.1 = k then some p.2 else lookupA ps k

/-- In-place update of an association list: replace the first binding of the key,
or append a new binding (Python `dict.__setitem__` / `setattr`). -/
def setA {α : Type} : List (String × α) → String → α → List (String × α)
  | [], k, v => [(k, v)]
  | p :: ps, k, v => if p.1 = k then (k, v) :: ps else p :: setA ps k v

/-- Apply a sequence of key/value assignments in order (Python `dict.update`). -/
def mergeKw (d : List (String × String)) (kw : List (String × String)) :
    List (String × String) :=
  kw.foldl (fun d p => setA d p.1 p.2) d

/-- A caller-owned context object: a mutable bag of named string attributes. -/
structure Ctx where
  attrs : List (String × String)
deriving DecidableEq

/-- `getattr(context, a, <absent>)`. -/
def getAttr (c : Ctx) (a : String) : Option String :=
  lookupA c.attrs a

/-- `setattr(context, a, v)`. -/
def setAttr (c : Ctx) (a : String) (v : String) : Ctx :=
  ⟨setA c.attrs a v⟩

/-- The data fields of a transition dictionary: the four reserved keys (minus the
callback, held separately because it is a function) plus caller metadata. -/
structure TransitionData where
  name : Option String
  from_state : String
  to_state : String
  meta : List (String × String)
deriving DecidableEq

/-- A guard or callback: mutates the context and optionally raises an error.
Mutations performed before a raise persist, as with in-place mutation in Python. -/
abbrev GuardFn := Ctx → TransitionData → Ctx × Option String

abbrev CallbackFn := Ctx → TransitionData → Ctx × Option String

/-- A full transition record: data fields plus the optional callback. -/
structure Transition where
  data : TransitionData
  callback : Option CallbackFn

/-- The `StateMachine` instance state: `state_attr`, `_transitions`,
`_state_data`, `_state_order`, `initial_state`. -/
structure Machine where
  state_attr : String
  transitions : List Transition
  state_data : List (String × List (String × String))
  state_order : List String
  initial_state : String

/-- A freshly constructed machine (`StateMachine(state_attr, initial_state=...)`). -/
def mkMachine (state_attr : String) (initial_state : String) : Machine :=
  { state_attr := state_attr
    transitions := []
    state_data := []
    state_order := []
    initial_state := initial_state }

/-- `StateMachine.add_state_info(state_name, **kw)`. -/
def Machine.add_state_info (m : Machine) (state_name : String)
    (kw : List (String × String)) : Machine :=
  let order :=
    if state_name ∈ m.state_order then m.state_order else m.state_order ++ [state_name]
  let data0 := (lookupA m.state_data state_name).getD []
  { m with
    state_order := order
    state_data := setA m.state_data state_name (mergeKw data0 kw) }

/-- The four reserved transition-dictionary keys. -/
def reservedKeys : List String := ["name", "from_state", "to_state", "callback"]

/-- `StateMachine.add_transition(transition_name, from_state, to_state, callback, **kw)`.
The reserved keys of `kw` are overwritten by the named arguments in the source, so
only the non-reserved part of `kw` survives as metadata. -/
def Machine.add_transition (m : Machine) (transition_name : Option String)
    (from_state to_state : String) (callback : Option CallbackFn)
    (kw : List (String × String)) : Machine :=
  let m1 := m.add_state_info from_state []
  let m2 := m1.add_state_info to_state []
  { m2 with
    transitions := m2.transitions ++
      [{ data :=
          { name := transition_name
            from_state := from_state
            to_state := to_state
            meta := kw.filter (fun p => p.1 ∉ reservedKeys) }
         callback := callback }] }

/-- `StateMachine.state_of(context)`: `getattr(context, state_attr, initial_state)`. -/
def Machine.state_of (m : Machine) (ctx : Ctx) : String :=
  (getAttr ctx m.state_attr).getD m.initial_state

/-- The first step of `execute`: `getattr(context, state_attr, _marker)`,
replaced by `initial_state` when the attribute is absent. -/
def executeCurrentState (m : Machine) (ctx : Ctx) : String :=
  match getAttr ctx m.state_attr with
  | some s => s
  | none => m.initial_state

/-- The lookup loop of `execute`: first transition whose
`(from_state, name)` pair equals `si`. -/
def findTransition : List Transition → String × Option String → Option Transition
  | [], _ => none
  | t :: ts, si =>
    if (t.data.from_state, t.data.name) = si then some t else findTransition ts si

/-- The guard loop of `execute`: run each guard in order on the current context,
stopping at the first raised error. -/
def runGuards : List GuardFn → Ctx → TransitionData → Ctx × Option String
  | [], ctx, _ => (ctx, none)
  | g :: gs, ctx, td =>
    match g ctx td with
    | (ctx1, none) => runGuards gs ctx1 td
    | (ctx1, some e) => (ctx1, some e)

/-- Outcome of `execute` / `transition_to_state`, carrying the context as the
caller observes it after the call. -/
inductive ExecResult where
  | ok (ctx : Ctx)
  | machineError (ctx : Ctx) (msg : String)
  | raised (ctx : Ctx) (err : String)
deriving DecidableEq

/-- Python `repr` of a string, as used in the error messages (escaping ignored). -/
def reprStr (s : String) : String := "'" ++ s ++ "'"

/-- Python `repr` of an optional string (`None` or a quoted string). -/
def reprOptStr : Option String → String
  | none => "None"
  | some s => reprStr s

/-- `StateMachine.execute(context, transition_name, guards)`. -/
def Machine.execute (m : Machine) (ctx : Ctx) (transition_name : Option String)
    (guards : List GuardFn) : ExecResult :=
  let state := executeCurrentState m ctx
  match findTransition m.transitions (state, transition_name) with
  | none =>
      .machineError ctx
        ("No transition from " ++ reprStr state ++ " using transition " ++
          reprOptStr transition_name)
  | some found =>
      match runGuards guards ctx found.data with
      | (ctx1, some e) => .raised ctx1 e
      | (ctx1, none) =>
          match found.callback with
          | none => .ok (setAttr ctx1 m.state_attr found.data.to_state)
          | some cb =>
              match cb ctx1 found.data with
              | (ctx2, some e) => .raised ctx2 e
              | (ctx2, none) => .ok (setAttr ctx2 m.state_attr found.data.to_state)

/-- `StateMachine.transitions(context, from_state=None)` (named `transitionsFrom`
here because `Machine.transitions` is the field holding the transition list). -/
def Machine.transitionsFrom (m : Machine) (ctx : Ctx) (from_state : Option String) :
    List Transition :=
  let fs := from_state.getD (m.state_of ctx)
  m.transitions.filter (fun t => fs = t.data.from_state)

/-- One entry of the list returned by `state_info`. -/
structure StateInfoEntry where
  name : String
  transitions : List Transition
  data : List (String × String)
  initial : Bool
  current : Bool
  title : String

/-- The inner loop of `state_info` building `D['transitions']`: append every
transition with the given `from_state` and `to_state`. -/
def stateInfoTransitions (ts : List Transition) (fs state_name : String) :
    List Transition :=
  ts.foldl
    (fun acc t =>
      if t.data.from_state = fs ∧ t.data.to_state = state_name then acc ++ [t] else acc)
    []

/-- The descriptor built by one iteration of the `state_info` outer loop. -/
def stateInfoEntryFor (m : Machine) (context_state fs state_name : String) :
    StateInfoEntry :=
  let state_data := (lookupA m.state_data state_name).getD []
  { name := state_name
    transitions := stateInfoTransitions m.transitions fs state_name
    data := state_data
    initial := state_name == m.initial_state
    current := state_name == context_state
    title := (lookupA state_data "title").getD state_name }

/-- `StateMachine.state_info(context, from_state=None)`. -/
def Machine.state_info (m : Machine) (ctx : Ctx) (from_state : Option String) :
    List StateInfoEntry :=
  let context_state := m.state_of ctx
  let fs := from_state.getD context_state
  m.state_order.map (stateInfoEntryFor m context_state fs)

/-- The loop of `transition_to_state` over `state_info`: the first info whose
name is `to_state` and whose transition list is non-empty yields its first
transition; an info with a matching name but no transitions is skipped. -/
def pickReaching : List StateInfoEntry → String → Option Transition
  | [], _ => none
  | info :: rest, to_state =>
    if info.name = to_state then
      match info.transitions with
      | t :: _ => some t
      | [] => pickReaching rest to_state
    else pickReaching rest to_state

/-- `StateMachine.transition_to_state(context, to_state, guards, skip_same)`. -/
def Machine.transition_to_state (m : Machine) (ctx : Ctx) (to_state : String)
    (guards : List GuardFn) (skip_same : Bool) : ExecResult :=
  let from_state := m.state_of ctx
  if from_state = to_state ∧ skip_same = true then .ok ctx
  else
    match pickReaching (m.state_info ctx none) to_state with
    | some t => m.execute ctx t.data.name guards
    | none =>
        .machineError ctx
          ("No transition from state " ++ reprStr from_state ++ " to state " ++
            reprStr to_state)

/-- `self._state_data[state_name]` as read by the queries (for machines built by
`add_state_info`/`add_transition` the key is always present). -/
def stateDataOf (m : Machine) (s : String) : List (String × String) :=
  (lookupA m.state_data s).getD []

/-! ### Concrete fixtures used to instantiate the general theorems -/

/-- Two transitions sharing the `(from_state, name)` pair `("A", "go")`:
the earlier one leads to `"B"`, the later one to `"C"`. -/
def mW1 : Machine :=
  (((mkMachine "state" "start").add_transition (some "go") "A" "B" none
      []).add_transition (some "go") "A" "C" none [])

def TW1 : Transition := ⟨⟨some "go", "A", "B", []⟩, none⟩

def TW1b : Transition := ⟨⟨some "go", "A", "C", []⟩, none⟩

/-- A machine whose only transition is registered under the name `None`. -/
def mW2 : Machine :=
  (mkMachine "state" "start").add_transition none "A" "B" none []

/-- A machine with a single ordinary transition `"go" : "A" → "B"`. -/
def mW3 : Machine :=
  (mkMachine "state" "start").add_transition (some "go") "A" "B" none []

def TW3 : Transition := ⟨⟨some "go", "A", "B", []⟩, none⟩

/-- A guard that vetoes every transition without mutating the context. -/
def gVeto : GuardFn := fun c _ => (c, some "veto")

/-- Counterexample machine: two transitions named `"go"` out of `"A"`, the first
to `"B"`, the second to `"S"`. -/
def mC4 : Machine :=
  (((mkMachine "state" "unused").add_transition (some "go") "A" "B" none
      []).add_transition (some "go") "A" "S" none [])

/-- A machine with a single transition `"publish" : "A" → "S"`. -/
def mW4 : Machine :=
  (mkMachine "state" "start").add_transition (some "publish") "A" "S" none []

def TW4 : Transition := ⟨⟨some "publish", "A", "S", []⟩, none⟩

/-- The spec's concrete scenario: `submit : draft → pending`,
`approve : pending → published`, no direct `draft → published` transition. -/
def mW6 : Machine :=
  (((mkMachine "state" "draft").add_transition (some "submit") "draft" "pending" none
      []).add_transition (some "approve") "pending" "published" none [])

def mW7 : Machine := mkMachine "state" "start"

def kwA : List (String × String) := [("title", "Alpha")]

def kwB : List (String × String) := [("color", "red")]

/-- A machine with a self-loop `"loop" : "A" → "A"`. -/
def mW10 : Machine :=
  (mkMachine "state" "start").add_transition (some "loop") "A" "A" none []

def TW10 : Transition := ⟨⟨some "loop", "A", "A", []⟩, none⟩

/-- A machine with a transition out of `"A"` but no self-loop on `"A"`. -/
def mW10b : Machine :=
  (mkMachine "state" "start").add_transition (some "go") "A" "B" none []

/-! ### Helper lemmas about the association-list and lookup primitives -/

theorem lookupA_setA_self {α : Type} (d : List (String × α)) (k : String) (v : α) :
    lookupA (setA d k v) k = some v := by
  induction d with
  | nil => simp [setA, lookupA]
  | cons p ps ih =>
      by_cases h : p.1 = k
      · simp [setA, h, lookupA]
      · simp [setA, h, lookupA, ih]

theorem lookupA_setA_ne {α : Type} (d : List (String × α)) (k k' : String) (v : α)
    (h : k' ≠ k) : lookupA (setA d k v) k' = lookupA d k' := by
  induction d with
  | nil => simp [setA, lookupA, Ne.symm h]
  | cons p ps ih =>
      by_cases hp : p.1 = k
      · subst hp
        simp [setA, lookupA, Ne.symm h]
      · simp [setA, lookupA, hp, h, ih]

theorem getAttr_setAttr_self (c : Ctx) (a v : String) :
    getAttr (setAttr c a v) a = some v := by
  simp [getAttr, setAttr, lookupA_setA_self]

theorem getAttr_setAttr_ne (c : Ctx) (a a' v : String) (h : a' ≠ a) :
    getAttr (setAttr c a v) a' = getAttr c a' := by
  simp [getAttr, setAttr, lookupA_setA_ne _ _ _ _ h]

theorem lookupA_mergeKw_not_mem (d kw : List (String × String)) (k : String)
    (h : k ∉ kw.map Prod.fst) : lookupA (mergeKw d kw) k = lookupA d k := by
  induction kw generalizing d with
  | nil => simp [mergeKw]
  | cons p ps ih =>
      simp only [List.map_cons, List.mem_cons, not_or] at h
      have : lookupA (mergeKw (setA d p.1 p.2) ps) k = lookupA (setA d p.1 p.2) k :=
        ih (setA d p.1 p.2) h.2
      simp only [mergeKw, List.foldl_cons] at *
      rw [this, lookupA_setA_ne _ _ _ _ h.1]

theorem lookupA_mergeKw_mem (d kw : List (String × String)) (k v : String)
    (hnd : (kw.map Prod.fst).Nodup) (hmem : (k, v) ∈ kw) :
    lookupA (mergeKw d kw) k = some v := by
  induction kw generalizing d with
  | nil => cases hmem
  | cons p ps ih =>
      simp only [List.map_cons, List.nodup_cons] at hnd
      rcases List.mem_cons.mp hmem with hh | hh
      · subst hh
        have : lookupA (mergeKw (setA d k v) ps) k = lookupA (setA d k v) k :=
          lookupA_mergeKw_not_mem _ _ _ hnd.1
        simp only [mergeKw, List.foldl_cons] at *
        rw [this, lookupA_setA_self]
      · simpa [mergeKw] using ih (setA d p.1 p.2) hnd.2 hh

/-! ### Helper lemmas about the execution primitives -/

theorem executeCurrentState_eq_state_of (m : Machine) (ctx : Ctx) :
    executeCurrentState m ctx = m.state_of ctx := by
  unfold executeCurrentState Machine.state_of
  cases getAttr ctx m.state_attr <;> rfl

theorem findTransition_eq_none (ts : List Transition) (si : String × Option String)
    (h : ∀ t ∈ ts, (t.data.from_state, t.data.name) ≠ si) :
    findTransition ts si = none := by
  induction ts with
  | nil => rfl
  | cons t ts ih =>
      have ht := h t (List.mem_cons_self t ts)
      simp only [findTransition, if_neg ht]
      exact ih fun u hu => h u (List.mem_cons_of_mem t hu)

theorem findTransition_append_first (pre post : List Transition) (T : Transition)
    (si : String × Option String)
    (hpre : ∀ t ∈ pre, (t.data.from_state, t.data.name) ≠ si)
    (hT : (T.data.from_state, T.data.name) = si) :
    findTransition (pre ++ T :: post) si = some T := by
  induction pre with
  | nil => simp [findTransition, hT]
  | cons t ts ih =>
      have ht := hpre t (List.mem_cons_self t ts)
      simp only [List.cons_append, findTransition, if_neg ht]
      exact ih fun u hu => hpre u (List.mem_cons_of_mem t hu)

theorem runGuards_append_ok (gs1 gs2 : List GuardFn) (ctx c1 : Ctx)
    (td : TransitionData) (h : runGuards gs1 ctx td = (c1, none)) :
    runGuards (gs1 ++ gs2) ctx td = runGuards gs2 c1 td := by
  induction gs1 generalizing ctx with
  | nil =>
      simp only [runGuards] at h
      cases h
      rfl
  | cons g gs ih =>
      simp only [List.cons_append, runGuards] at *
      rcases hg : g ctx td with ⟨ctx1, e?⟩
      rw [hg] at h
      cases e? with
      | none => exact ih ctx1 h
      | some e => cases h

theorem runGuards_append_err (gs1 gs2 : List GuardFn) (ctx c1 : Ctx)
    (td : TransitionData) (e : String) (h : runGuards gs1 ctx td = (c1, some e)) :
    runGuards (gs1 ++ gs2) ctx td = (c1, some e) := by
  induction gs1 generalizing ctx with
  | nil => simp [runGuards] at h
  | cons g gs ih =>
      simp only [List.cons_append, runGuards] at *
      rcases hg : g ctx td with ⟨ctx1, e?⟩
      rw [hg] at h
      cases e? with
      | none => exact ih ctx1 h
      | some e' => exact h

theorem runGuards_preserves_attr (gs : List GuardFn) (ctx : Ctx)
    (td : TransitionData) (a : String)
    (hp : ∀ g ∈ gs, ∀ c t, getAttr (g c t).1 a = getAttr c a) :
    getAttr (runGuards gs ctx td).1 a = getAttr ctx a := by
  induction gs generalizing ctx with
  | nil => rfl
  | cons g gs ih =>
      have hgp := hp g (List.mem_cons_self g gs)
      have hrest : ∀ g' ∈ gs, ∀ c t, getAttr (g' c t).1 a = getAttr c a :=
        fun g' hg' => hp g' (List.mem_cons_of_mem g hg')
      simp only [runGuards]
      rcases hg : g ctx td with ⟨ctx1, e?⟩
      have h1 : getAttr ctx1 a = getAttr ctx a := by
        have := hgp ctx td
        rw [hg] at this
        exact this
      cases e? with
      | none => rw [ih ctx1 hrest, h1]
      | some e => exact h1

/-! ### Helper lemmas about `state_info` and `transition_to_state` -/

@[simp] theorem stateInfoEntryFor_name (m : Machine) (cs fs sn : String) :
    (stateInfoEntryFor m cs fs sn).name = sn := rfl

@[simp] theorem stateInfoEntryFor_transitions (m : Machine) (cs fs sn : String) :
    (stateInfoEntryFor m cs fs sn).transitions = stateInfoTransitions m.transitions fs sn :=
  rfl

theorem state_info_none (m : Machine) (ctx : Ctx) :
    m.state_info ctx none
      = m.state_order.map (stateInfoEntryFor m (m.state_of ctx) (m.state_of ctx)) := rfl

theorem stateInfoTransitions_go (ts : List Transition) (fs sn : String)
    (acc : List Transition) :
    ts.foldl
        (fun acc t =>
          if t.data.from_state = fs ∧ t.data.to_state = sn then acc ++ [t] else acc)
        acc
      = acc ++ ts.filter (fun t => t.data.from_state = fs ∧ t.data.to_state = sn) := by
  induction ts generalizing acc with
  | nil => simp
  | cons t ts ih =>
      by_cases h : t.data.from_state = fs ∧ t.data.to_state = sn
      · simp [List.filter_cons, h, ih]
      · simp [List.filter_cons, h, ih]

theorem stateInfoTransitions_eq_filter (ts : List Transition) (fs sn : String) :
    stateInfoTransitions ts fs sn
      = ts.filter (fun t => t.data.from_state = fs ∧ t.data.to_state = sn) := by
  simpa using stateInfoTransitions_go ts fs sn []

theorem pickReaching_map_not_mem (m : Machine) (cs fs : String) (order : List String)
    (S : String) (h : S ∉ order) :
    pickReaching (order.map (stateInfoEntryFor m cs fs)) S = none := by
  induction order with
  | nil => rfl
  | cons s rest ih =>
      simp only [List.mem_cons, not_or] at h
      simp only [List.map_cons, pickReaching, stateInfoEntryFor_name]
      rw [if_neg (fun hh => h.1 hh.symm)]
      exact ih h.2

theorem pickReaching_map_nodup (m : Machine) (cs fs : String) (order : List String)
    (S : String) (hnd : order.Nodup) (hS : S ∈ order) :
    pickReaching (order.map (stateInfoEntryFor m cs fs)) S
      = (stateInfoTransitions m.transitions fs S).head? := by
  induction order with
  | nil => cases hS
  | cons s rest ih =>
      rcases List.nodup_cons.mp hnd with ⟨hnotin, hnd'⟩
      by_cases hsS : s = S
      · subst hsS
        simp only [List.map_cons, pickReaching, stateInfoEntryFor_name, if_pos rfl,
          stateInfoEntryFor_transitions]
        cases htr : stateInfoTransitions m.transitions fs s with
        | nil => simp [pickReaching_map_not_mem m cs fs rest s hnotin]
        | cons t ts => simp
      · have hS' : S ∈ rest := by
          rcases List.mem_cons.mp hS with h | h
          · exact absurd h.symm hsS
          · exact h
        simp only [List.map_cons, pickReaching, stateInfoEntryFor_name]
        rw [if_neg hsS]
        exact ih hnd' hS'

theorem pickReaching_map_empty (m : Machine) (cs fs : String) (order : List String)
    (S : String) (h : stateInfoTransitions m.transitions fs S = []) :
    pickReaching (order.map (stateInfoEntryFor m cs fs)) S = none := by
  induction order with
  | nil => rfl
  | cons s rest ih =>
      by_cases hsS : s = S
      · subst hsS
        simp only [List.map_cons, pickReaching, stateInfoEntryFor_name, if_pos rfl,
          stateInfoEntryFor_transitions, h]
        exact ih
      · simp only [List.map_cons, pickReaching, stateInfoEntryFor_name]
        rw [if_neg hsS]
        exact ih

/-- Core success lemma for `execute`: when the lookup loop finds `T`, all guards
return normally (possibly mutating the context to `ctx1`) and the callback (if
any) returns normally, the call returns normally and writes `T`'s `to_state`
into the context's state attribute. -/
theorem execute_ok_of_found (m : Machine) (ctx ctx1 : Ctx) (N : Option String)
    (T : Transition) (guards : List GuardFn)
    (hfind : findTransition m.transitions (m.state_of ctx, N) = some T)
    (hguards : runGuards guards ctx T.data = (ctx1, none))
    (hcb : ∀ cb, T.callback = some cb → (cb ctx1 T.data).2 = none) :
    ∃ ctx2, m.execute ctx N guards = ExecResult.ok ctx2 ∧
      getAttr ctx2 m.state_attr = some T.data.to_state := by
  simp only [Machine.execute, executeCurrentState_eq_state_of, hfind, hguards]
  cases hc : T.callback with
  | none => exact ⟨_, rfl, getAttr_setAttr_self _ _ _⟩
  | some cb =>
      rcases hcc : cb ctx1 T.data with ⟨ctx2, e?⟩
      have he := hcb cb hc
      rw [hcc] at he
      simp only at he
      subst he
      simp only [hcc]
      exact ⟨_, rfl, getAttr_setAttr_self _ _ _⟩

/-! ### Claim theorems -/

/-- C1: for every transition record `T = (from_state = A, name = N, to_state = B)`
that is the first record in registration order matching `(A, N)`, calling
`execute(context, N)` on a context whose current state is `A`, with all guards
returning normally and the callback (if non-null) returning normally, succeeds
and sets the context's state attribute to `B`; when duplicate
`(from_state, name)` pairs exist, the earliest-registered record is matched. -/
theorem C1_execute_first_match
    (m : Machine) (ctx ctx1 : Ctx) (A B : String) (N : Option String)
    (pre post : List Transition) (T : Transition) (guards : List GuardFn)
    (hstate : m.state_of ctx = A)
    (hsplit : m.transitions = pre ++ T :: post)
    (hpre : ∀ t ∈ pre, (t.data.from_state, t.data.name) ≠ (A, N))
    (hT : (T.data.from_state, T.data.name) = (A, N))
    (hto : T.data.to_state = B)
    (hguards : runGuards guards ctx T.data = (ctx1, none))
    (hcb : ∀ cb, T.callback = some cb → (cb ctx1 T.data).2 = none) :
    ∃ ctx2, m.execute ctx N guards = ExecResult.ok ctx2 ∧
      getAttr ctx2 m.state_attr = some B := by
  have hfind : findTransition m.transitions (m.state_of ctx, N) = some T := by
    rw [hstate, hsplit]
    exact findTransition_append_first pre post T (A, N) hpre hT
  obtain ⟨ctx2, hok, hattr⟩ :=
    execute_ok_of_found m ctx ctx1 N T guards hfind hguards hcb
  exact ⟨ctx2, hok, by rw [hattr, hto]⟩

/-- C1 witness: on a machine with duplicate `("A", "go")` transitions (first one
to `"B"`, second to `"C"`), executing `"go"` from `"A"` lands in `"B"`. -/
theorem C1_witness :
    ∃ ctx2, mW1.execute ⟨[("state", "A")]⟩ (some "go") [] = ExecResult.ok ctx2 ∧
      getAttr ctx2 mW1.state_attr = some "B" :=
  C1_execute_first_match mW1 ⟨[("state", "A")]⟩ ⟨[("state", "A")]⟩ "A" "B" (some "go")
    [] [TW1b] TW1 [] (by decide) rfl
    (by intro t ht; exact absurd ht (List.not_mem_nil t)) rfl rfl rfl
    (by intro cb h; exact Option.noConfusion h)

/-- C2: when no registered transition record has `(from_state, name)` equal to
`(current state, transition_name)`, `execute` raises `StateMachineError` and the
context is unchanged (the error result carries the untouched input context); a
registered `(current state, None)` record is never used as a wildcard fallback
for a non-`None` name, since the lookup loop compares names with plain
equality. -/
theorem C2_execute_no_match (m : Machine) (ctx : Ctx) (N : Option String)
    (guards : List GuardFn)
    (hnone : ∀ t ∈ m.transitions,
      ¬ (t.data.from_state = m.state_of ctx ∧ t.data.name = N)) :
    m.execute ctx N guards = ExecResult.machineError ctx
      ("No transition from " ++ reprStr (m.state_of ctx) ++ " using transition " ++
        reprOptStr N) := by
  have hfind : findTransition m.transitions (m.state_of ctx, N) = none := by
    apply findTransition_eq_none
    intro t ht heq
    exact hnone t ht ⟨congrArg Prod.fst heq, congrArg Prod.snd heq⟩
  simp only [Machine.execute, executeCurrentState_eq_state_of, hfind]

/-- C2 witness: the machine `mW2` registers only a transition named `None` out of
`"A"`; executing the name `"poke"` from `"A"` raises `StateMachineError` with the
untouched context, rather than falling back to the `(A, None)` record. -/
theorem C2_witness :
    mW2.execute ⟨[("state", "A")]⟩ (some "poke") [] =
      ExecResult.machineError ⟨[("state", "A")]⟩
        ("No transition from " ++ reprStr (mW2.state_of ⟨[("state", "A")]⟩) ++
          " using transition " ++ reprOptStr (some "poke")) :=
  C2_execute_no_match mW2 ⟨[("state", "A")]⟩ (some "poke") [] (by decide)

/-- C3: during `execute`, a guard or callback error propagates with its original
value; the engine adds no state write, so when guards (and the callback) leave
the state attribute alone, the attribute after the call equals its value before;
the callback is never invoked when a guard raises (the result is independent of
the matched record's callback); guards run in the order supplied, each applied
to the context and the matched transition record, and guards after a raising
guard are never reached. -/
theorem C3_error_propagation (m : Machine) (ctx : Ctx) (N : Option String)
    (guards : List GuardFn) (T : Transition)
    (hfind : findTransition m.transitions (m.state_of ctx, N) = some T) :
    (∀ ctx1 e, runGuards guards ctx T.data = (ctx1, some e) →
        m.execute ctx N guards = ExecResult.raised ctx1 e)
    ∧ (∀ ctx1 cb ctx2 e, runGuards guards ctx T.data = (ctx1, none) →
        T.callback = some cb → cb ctx1 T.data = (ctx2, some e) →
        m.execute ctx N guards = ExecResult.raised ctx2 e)
    ∧ (∀ ctx1 e, runGuards guards ctx T.data = (ctx1, some e) →
        (∀ g ∈ guards, ∀ c td, getAttr (g c td).1 m.state_attr = getAttr c m.state_attr) →
        getAttr ctx1 m.state_attr = getAttr ctx m.state_attr)
    ∧ (∀ ctx1 cb ctx2 e, runGuards guards ctx T.data = (ctx1, none) →
        T.callback = some cb → cb ctx1 T.data = (ctx2, some e) →
        (∀ g ∈ guards, ∀ c td, getAttr (g c td).1 m.state_attr = getAttr c m.state_attr) →
        (∀ c td, getAttr (cb c td).1 m.state_attr = getAttr c m.state_attr) →
        getAttr ctx2 m.state_attr = getAttr ctx m.state_attr)
    ∧ (∀ gs2 ctx1, runGuards guards ctx T.data = (ctx1, none) →
        runGuards (guards ++ gs2) ctx T.data = runGuards gs2 ctx1 T.data)
    ∧ (∀ gs2 ctx1 e, runGuards guards ctx T.data = (ctx1, some e) →
        runGuards (guards ++ gs2) ctx T.data = (ctx1, some e)) := by
  refine ⟨?_, ?_, ?_, ?_, ?_, ?_⟩
  · intro ctx1 e hg
    simp only [Machine.execute, executeCurrentState_eq_state_of, hfind, hg]
  · intro ctx1 cb ctx2 e hg hc hcc
    simp only [Machine.execute, executeCurrentState_eq_state_of, hfind, hg, hc, hcc]
  · intro ctx1 e hg hp
    have h1 := runGuards_preserves_attr guards ctx T.data m.state_attr hp
    rw [hg] at h1
    exact h1
  · intro ctx1 cb ctx2 e hg hc hcc hp hcp
    have h1 := runGuards_preserves_attr guards ctx T.data m.state_attr hp
    rw [hg] at h1
    have h2 := hcp ctx1 T.data
    rw [hcc] at h2
    exact h2.trans h1
  · intro gs2 ctx1 hg
    exact runGuards_append_ok guards gs2 ctx ctx1 T.data hg
  · intro gs2 ctx1 e hg
    exact runGuards_append_err guards gs2 ctx ctx1 T.data e hg

/-- C3 witness: a vetoing guard on `mW3` makes `execute` return the guard's own
error with the untouched context; the transition's callback is not consulted. -/
theorem C3_witness :
    mW3.execute ⟨[("state", "A")]⟩ (some "go") [gVeto] =
      ExecResult.raised ⟨[("state", "A")]⟩ "veto" :=
  (C3_error_propagation mW3 ⟨[("state", "A")]⟩ (some "go") [gVeto] TW3 rfl).1
    ⟨[("state", "A")]⟩ "veto" rfl

/-- C5: when the context's current state already equals the target and
`skip_same` is true, `transition_to_state` returns normally with the context
untouched, for every list of guards (so no guard or callback is invoked). -/
theorem C5_skip_same (m : Machine) (ctx : Ctx) (S : String) (guards : List GuardFn)
    (hcur : m.state_of ctx = S) :
    m.transition_to_state ctx S guards true = ExecResult.ok ctx := by
  simp [Machine.transition_to_state, hcur]

/-- C5 witness: `mW3` in state `"A"`, asked to move to `"A"` with `skip_same`,
no-ops even with a vetoing guard supplied. -/
theorem C5_witness :
    mW3.transition_to_state ⟨[("state", "A")]⟩ "A" [gVeto] true =
      ExecResult.ok ⟨[("state", "A")]⟩ :=
  C5_skip_same mW3 ⟨[("state", "A")]⟩ "A" [gVeto] (by decide)

/-- C7: `state_of` returns the context's state attribute, or `initial_state`
when the attribute is absent, and is a total function; the first step of
`execute` reads the current state by exactly the same defaulting rule. -/
theorem C7_state_of_default (m : Machine) (ctx : Ctx) :
    (∀ s, getAttr ctx m.state_attr = some s → m.state_of ctx = s)
    ∧ (getAttr ctx m.state_attr = none → m.state_of ctx = m.initial_state)
    ∧ executeCurrentState m ctx = m.state_of ctx := by
  refine ⟨?_, ?_, executeCurrentState_eq_state_of m ctx⟩
  · intro s h
    simp [Machine.state_of, h]
  · intro h
    simp [Machine.state_of, h]

/-- C7 witness: on `mW7`, a context without the attribute reads as the initial
state and a context with the attribute reads its stored value. -/
theorem C7_witness :
    mW7.state_of ⟨[]⟩ = mW7.initial_state ∧ mW7.state_of ⟨[("state", "B")]⟩ = "B" :=
  ⟨(C7_state_of_default mW7 ⟨[]⟩).2.1 rfl,
    (C7_state_of_default mW7 ⟨[("state", "B")]⟩).1 "B" rfl⟩

theorem stateDataOf_add_state_info (m : Machine) (s : String)
    (kw : List (String × String)) :
    stateDataOf (m.add_state_info s kw) s = mergeKw (stateDataOf m s) kw := by
  simp [Machine.add_state_info, stateDataOf, lookupA_setA_self]

theorem add_state_info_state_order_mem (m : Machine) (s : String)
    (kw : List (String × String)) (h : s ∈ m.state_order) :
    (m.add_state_info s kw).state_order = m.state_order := by
  simp [Machine.add_state_info, h]

theorem add_state_info_state_order_not_mem (m : Machine) (s : String)
    (kw : List (String × String)) (h : s ∉ m.state_order) :
    (m.add_state_info s kw).state_order = m.state_order ++ [s] := by
  simp [Machine.add_state_info, h]

/-- C6: when the current state differs from the target and no single registered
transition goes directly from the current state to the target,
`transition_to_state` raises `StateMachineError` with the untouched context: it
never chains two or more transitions, even when a multi-step path exists. -/
theorem C6_no_reaching_transition (m : Machine) (ctx : Ctx) (S : String)
    (guards : List GuardFn) (sk : Bool)
    (hne : m.state_of ctx ≠ S)
    (hnone : ∀ t ∈ m.transitions,
      ¬ (t.data.from_state = m.state_of ctx ∧ t.data.to_state = S)) :
    m.transition_to_state ctx S guards sk = ExecResult.machineError ctx
      ("No transition from state " ++ reprStr (m.state_of ctx) ++ " to state " ++
        reprStr S) := by
  have hempty : stateInfoTransitions m.transitions (m.state_of ctx) S = [] := by
    rw [stateInfoTransitions_eq_filter]
    simp only [List.filter_eq_nil_iff]
    intro t ht
    simpa using hnone t ht
  have hpick : pickReaching (m.state_info ctx none) S = none := by
    rw [state_info_none]
    exact pickReaching_map_empty m (m.state_of ctx) (m.state_of ctx) m.state_order S
      hempty
  simp only [Machine.transition_to_state]
  rw [if_neg (fun h => hne h.1)]
  simp only [hpick]

/-- C6 witness: the spec's scenario — only `submit : draft → pending` and
`approve : pending → published` registered — so asking for `published` from
`draft` fails rather than chaining the two transitions. -/
theorem C6_witness :
    mW6.transition_to_state ⟨[]⟩ "published" [] true =
      ExecResult.machineError ⟨[]⟩
        ("No transition from state " ++ reprStr (mW6.state_of ⟨[]⟩) ++ " to state " ++
          reprStr "published") :=
  C6_no_reaching_transition mW6 ⟨[]⟩ "published" [] true (by decide) (by decide)

/-- C10: with `skip_same = False` a context already in the target state does not
no-op: when no self-loop on that state is registered the call raises
`StateMachineError`, and when one is registered the call delegates to `execute`
with the name of the first registered self-loop. -/
theorem C10_no_skip_same (m : Machine) (ctx : Ctx) (S : String)
    (guards : List GuardFn) (hcur : m.state_of ctx = S) :
    ((∀ t ∈ m.transitions, ¬ (t.data.from_state = S ∧ t.data.to_state = S)) →
        m.transition_to_state ctx S guards false = ExecResult.machineError ctx
          ("No transition from state " ++ reprStr S ++ " to state " ++ reprStr S))
    ∧ (∀ T, m.state_order.Nodup → S ∈ m.state_order →
        (m.transitions.filter (fun t =>
          t.data.from_state = S ∧ t.data.to_state = S)).head? = some T →
        m.transition_to_state ctx S guards false = m.execute ctx T.data.name guards) := by
  constructor
  · intro hnone
    have hempty : stateInfoTransitions m.transitions (m.state_of ctx) S = [] := by
      rw [hcur, stateInfoTransitions_eq_filter]
      simp only [List.filter_eq_nil_iff]
      intro t ht
      simpa using hnone t ht
    have hpick : pickReaching (m.state_info ctx none) S = none := by
      rw [state_info_none]
      exact pickReaching_map_empty m (m.state_of ctx) (m.state_of ctx) m.state_order S
        hempty
    simp only [Machine.transition_to_state]
    rw [if_neg (fun h => by simpa using h.2)]
    simp only [hpick, hcur]
  · intro T hnd hS hfirst
    have hpick : pickReaching (m.state_info ctx none) S = some T := by
      rw [state_info_none,
        pickReaching_map_nodup m (m.state_of ctx) (m.state_of ctx) m.state_order S hnd
          hS, hcur, stateInfoTransitions_eq_filter]
      exact hfirst
    simp only [Machine.transition_to_state]
    rw [if_neg (fun h => by simpa using h.2)]
    simp only [hpick]

/-- C10 witness: with `skip_same = False`, `mW10` (which has the self-loop
`loop : A → A`) delegates to `execute` with `"loop"`, while `mW10b` (no
self-loop on `A`) raises `StateMachineError`. -/
theorem C10_witness :
    mW10.transition_to_state ⟨[("state", "A")]⟩ "A" [] false =
        mW10.execute ⟨[("state", "A")]⟩ TW10.data.name []
    ∧ mW10b.transition_to_state ⟨[("state", "A")]⟩ "A" [] false =
        ExecResult.machineError ⟨[("state", "A")]⟩
          ("No transition from state " ++ reprStr "A" ++ " to state " ++ reprStr "A") :=
  ⟨(C10_no_skip_same mW10 ⟨[("state", "A")]⟩ "A" [] (by decide)).2 TW10 (by decide)
      (by decide) rfl,
    (C10_no_skip_same mW10b ⟨[("state", "A")]⟩ "A" [] (by decide)).1 (by decide)⟩

/-- C4 counterexample: on `mC4`, the records `go : A → B` and `go : A → S` share
the `(from_state, name)` pair, the context is in `"A"` (≠ `"S"`), a transition
from `"A"` to `"S"` is registered, there are no guards and no callbacks (so the
whole pipeline returns normally), yet `transition_to_state` to `"S"` returns
normally with the state attribute set to `"B"`, not `"S"`: the claim as stated
is false. -/
theorem C4_counterexample :
    mC4.state_of ⟨[("state", "A")]⟩ = "A"
    ∧ ("A" : String) ≠ "S"
    ∧ (∃ t ∈ mC4.transitions, t.data.from_state = "A" ∧ t.data.to_state = "S")
    ∧ mC4.transition_to_state ⟨[("state", "A")]⟩ "S" [] true =
        ExecResult.ok ⟨[("state", "B")]⟩
    ∧ getAttr ⟨[("state", "B")]⟩ mC4.state_attr = some "B"
    ∧ ("B" : String) ≠ "S" := by
  refine ⟨by decide, by decide, ?_, by decide, by decide, by decide⟩
  decide

/-- C4 (amended): when the current state differs from `S`, a transition from the
current state to `S` is registered, and additionally the first such transition
is not shadowed by an earlier record with the same `(from_state, name)` pair,
`transition_to_state` runs the guard/callback pipeline of `execute` on it and,
when they return normally, returns normally with the state attribute set to
`S`. -/
theorem C4_transition_to_state_first (m : Machine) (ctx ctx1 : Ctx) (S : String)
    (guards : List GuardFn) (sk : Bool) (T : Transition)
    (hne : m.state_of ctx ≠ S)
    (hnd : m.state_order.Nodup)
    (hS : S ∈ m.state_order)
    (hfirst : (m.transitions.filter (fun t =>
        t.data.from_state = m.state_of ctx ∧ t.data.to_state = S)).head? = some T)
    (hnoshadow : findTransition m.transitions (m.state_of ctx, T.data.name) = some T)
    (hguards : runGuards guards ctx T.data = (ctx1, none))
    (hcb : ∀ cb, T.callback = some cb → (cb ctx1 T.data).2 = none) :
    ∃ ctx2, m.transition_to_state ctx S guards sk = ExecResult.ok ctx2 ∧
      getAttr ctx2 m.state_attr = some S := by
  have hto : T.data.to_state = S := by
    have hmem : T ∈ m.transitions.filter (fun t =>
        t.data.from_state = m.state_of ctx ∧ t.data.to_state = S) := by
      cases hl : m.transitions.filter (fun t =>
          t.data.from_state = m.state_of ctx ∧ t.data.to_state = S) with
      | nil =>
          rw [hl] at hfirst
          exact absurd hfirst (by simp)
      | cons a as =>
          rw [hl] at hfirst
          simp only [List.head?_cons, Option.some.injEq] at hfirst
          subst hfirst
          exact List.mem_cons_self a as
    have hmf := List.mem_filter.mp hmem
    have hp : T.data.from_state = m.state_of ctx ∧ T.data.to_state = S := by
      simpa using hmf.2
    exact hp.2
  have hpick : pickReaching (m.state_info ctx none) S = some T := by
    rw [state_info_none,
      pickReaching_map_nodup m (m.state_of ctx) (m.state_of ctx) m.state_order S hnd hS,
      stateInfoTransitions_eq_filter]
    exact hfirst
  obtain ⟨ctx2, hok, hattr⟩ :=
    execute_ok_of_found m ctx ctx1 T.data.name T guards hnoshadow hguards hcb
  refine ⟨ctx2, ?_, by rw [hattr, hto]⟩
  simp only [Machine.transition_to_state]
  rw [if_neg (fun h => hne h.1)]
  simp only [hpick]
  exact hok

/-- C4 witness: `mW4` has the single transition `publish : A → S`; from `"A"`,
`transition_to_state` to `"S"` succeeds and writes `"S"`. -/
theorem C4_witness :
    ∃ ctx2, mW4.transition_to_state ⟨[("state", "A")]⟩ "S" [] true =
        ExecResult.ok ctx2 ∧ getAttr ctx2 mW4.state_attr = some "S" :=
  C4_transition_to_state_first mW4 ⟨[("state", "A")]⟩ ⟨[("state", "A")]⟩ "S" [] true
    TW4 (by decide) (by decide) (by decide) rfl rfl rfl
    (by intro cb h; exact Option.noConfusion h)

/-- C8: `add_state_info` is idempotent on the state order and merging on the
metadata: registering the same state twice with disjoint metadata keys yields a
single entry in the state order — placed where the first registration put it,
with re-registration never moving it — whose metadata map answers both calls'
key/value pairs. -/
theorem C8_add_state_info_idempotent (m : Machine) (s : String)
    (kw1 kw2 : List (String × String))
    (hk1 : (kw1.map Prod.fst).Nodup) (hk2 : (kw2.map Prod.fst).Nodup)
    (hdisj : ∀ k ∈ kw1.map Prod.fst, k ∉ kw2.map Prod.fst) :
    ((m.add_state_info s kw1).add_state_info s kw2).state_order
        = (m.add_state_info s kw1).state_order
    ∧ (s ∉ m.state_order →
        (m.add_state_info s kw1).state_order = m.state_order ++ [s])
    ∧ (s ∈ m.state_order → (m.add_state_info s kw1).state_order = m.state_order)
    ∧ (∀ k v, (k, v) ∈ kw1 →
        lookupA (stateDataOf ((m.add_state_info s kw1).add_state_info s kw2) s) k
          = some v)
    ∧ (∀ k v, (k, v) ∈ kw2 →
        lookupA (stateDataOf ((m.add_state_info s kw1).add_state_info s kw2) s) k
          = some v) := by
  have hmem1 : s ∈ (m.add_state_info s kw1).state_order := by
    by_cases h : s ∈ m.state_order <;> simp [Machine.add_state_info, h]
  have hd2 : stateDataOf ((m.add_state_info s kw1).add_state_info s kw2) s
      = mergeKw (mergeKw (stateDataOf m s) kw1) kw2 := by
    rw [stateDataOf_add_state_info, stateDataOf_add_state_info]
  refine ⟨?_, ?_, ?_, ?_, ?_⟩
  · exact add_state_info_state_order_mem (m.add_state_info s kw1) s kw2 hmem1
  · intro h
    exact add_state_info_state_order_not_mem m s kw1 h
  · intro h
    exact add_state_info_state_order_mem m s kw1 h
  · intro k v hkv
    have hk : k ∈ kw1.map Prod.fst := List.mem_map.mpr ⟨(k, v), hkv, rfl⟩
    have hknot : k ∉ kw2.map Prod.fst := hdisj k hk
    rw [hd2, lookupA_mergeKw_not_mem _ _ _ hknot,
      lookupA_mergeKw_mem _ _ _ _ hk1 hkv]
  · intro k v hkv
    rw [hd2, lookupA_mergeKw_mem _ _ _ _ hk2 hkv]

/-- C8 witness: registering `"A"` with `title` metadata and then again with
`color` metadata yields one state-order entry (appended by the first call) and a
metadata map answering both keys. -/
theorem C8_witness :
    ((mW7.add_state_info "A" kwA).add_state_info "A" kwB).state_order
        = (mW7.add_state_info "A" kwA).state_order
    ∧ (mW7.add_state_info "A" kwA).state_order = mW7.state_order ++ ["A"]
    ∧ lookupA (stateDataOf ((mW7.add_state_info "A" kwA).add_state_info "A" kwB) "A")
        "title" = some "Alpha"
    ∧ lookupA (stateDataOf ((mW7.add_state_info "A" kwA).add_state_info "A" kwB) "A")
        "color" = some "red" := by
  have h := C8_add_state_info_idempotent mW7 "A" kwA kwB (by decide) (by decide)
    (by decide)
  exact ⟨h.1, h.2.1 (by decide), h.2.2.2.1 "title" "Alpha" (by decide),
    h.2.2.2.2 "color" "red" (by decide)⟩

/-- C9: `state_info` returns one descriptor per known state in first-registration
order; each descriptor carries the state's accumulated metadata, the
initial/current flags, the title (defaulting to the state name when the metadata
has no `"title"` key), and exactly the registration-ordered sublist of the
transition list whose `from_state` is the resolved from-state (the explicit
argument, or else the context's current state) and whose `to_state` is the
descriptor's state. -/
theorem C9_state_info_shape (m : Machine) (ctx : Ctx) (fs? : Option String) :
    m.state_info ctx fs? = m.state_order.map (fun sn =>
      { name := sn
        transitions := m.transitions.filter (fun t =>
          t.data.from_state = fs?.getD (m.state_of ctx) ∧ t.data.to_state = sn)
        data := (lookupA m.state_data sn).getD []
        initial := sn == m.initial_state
        current := sn == m.state_of ctx
        title := (lookupA ((lookupA m.state_data sn).getD []) "title").getD sn }) := by
  simp only [Machine.state_info]
  refine List.map_congr_left fun sn _ => ?_
  simp [stateInfoEntryFor, stateInfoTransitions_eq_filter]

end RepozeWorkflow
